import Mathlib

/-!
Verification of the UDP reliable file transfer core (packages protocol,
clientudp, serverudp of the repository) against its specification.

Modelling conventions, used throughout:
* Go byte slices and Go strings are modelled as `List Nat`, each element a
  byte value below 256 (the Go code never decodes UTF-8, so bytes suffice).
* Machine integers are `Nat` or `Int` with explicit `% 2^w` at the points
  where the Go code performs a narrowing conversion (`uint16(x)`, `uint32(x)`,
  `uint64(x)`); typing invariants of the Go code (a `uint32` value is below
  2^32) become explicit hypotheses.
* Fallible Go functions returning `(T, error)` become `Except String T`,
  with the error strings of the source.
* The float64 drop rate and the PRNG of the drop policy are modelled over
  the rationals: the drop policy logic only compares samples to the rate,
  so the control flow is identical for every ordered field.
-/

namespace protocol

/-- Big endian encoding of a 16 bit value, as written by
binary.BigEndian.PutUint16; the Go conversion uint16(v) is reflected by
the modulus. -/
def u16be (v : Nat) : List Nat := [v / 2^8 % 256, v % 256]

/-- Big endian encoding of a 32 bit value (binary.BigEndian.PutUint32). -/
def u32be (v : Nat) : List Nat :=
  [v / 2^24 % 256, v / 2^16 % 256, v / 2^8 % 256, v % 256]

/-- Big endian encoding of a 64 bit value (binary.BigEndian.PutUint64). -/
def u64be (v : Nat) : List Nat :=
  [v / 2^56 % 256, v / 2^48 % 256, v / 2^40 % 256, v / 2^32 % 256,
   v / 2^24 % 256, v / 2^16 % 256, v / 2^8 % 256, v % 256]

/-- Big endian read of a 16 bit value at a byte offset
(binary.BigEndian.Uint16 of a subslice; every use in the source is guarded
by a length check, so the default never shows through). -/
def readU16 (b : List Nat) (off : Nat) : Nat :=
  2^8 * b.getD off 0 + b.getD (off+1) 0

/-- Big endian read of a 32 bit value at a byte offset. -/
def readU32 (b : List Nat) (off : Nat) : Nat :=
  2^24 * b.getD off 0 + 2^16 * b.getD (off+1) 0 +
  2^8 * b.getD (off+2) 0 + b.getD (off+3) 0

/-- Big endian read of a 64 bit value at a byte offset. -/
def readU64 (b : List Nat) (off : Nat) : Nat :=
  2^56 * b.getD off 0 + 2^48 * b.getD (off+1) 0 +
  2^40 * b.getD (off+2) 0 + 2^32 * b.getD (off+3) 0 +
  2^24 * b.getD (off+4) 0 + 2^16 * b.getD (off+5) 0 +
  2^8 * b.getD (off+6) 0 + b.getD (off+7) 0

/-- Go conversion from uint64 to int64 (used by unpackMETA for the Size
field): values at or above 2^63 wrap to negative numbers. -/
def int64OfU64 (n : Nat) : Int :=
  if n < 2^63 then (n : Int) else (n : Int) - 2^64

/-- One shift step of the reflected CRC-32 computation with the IEEE
polynomial 0xEDB88320, as computed by hash/crc32.ChecksumIEEE. -/
def crc32Step (c : Nat) : Nat :=
  if c % 2 = 1 then (c / 2) ^^^ 0xEDB88320 else c / 2

/-- Eight CRC shift steps, one per bit of a byte. -/
def crc32Rounds : Nat → Nat → Nat
  | 0, c => c
  | n+1, c => crc32Rounds n (crc32Step c)

/-- Fold one byte into the running CRC state. -/
def crc32Byte (c b : Nat) : Nat := crc32Rounds 8 (c ^^^ b)

/-- Bitwise definition of crc32.ChecksumIEEE: initial state 0xFFFFFFFF,
each byte folded with eight reflected polynomial steps, final complement.
This is the standard reflected IEEE CRC-32, the algorithm the Go standard
library table implements. -/
def CRC32 (data : List Nat) : Nat :=
  (data.foldl crc32Byte 0xFFFFFFFF) ^^^ 0xFFFFFFFF

/-! SHA-256 (crypto/sha256), FIPS 180-4, executable over byte lists. -/

/-- Right rotation of a 32 bit word. -/
def rotr32 (n x : Nat) : Nat := ((x / 2^n) + (x * 2^(32 - n))) % 2^32

/-- Round constants of SHA-256 (FIPS 180-4, written in decimal). -/
def shaK : List Nat :=
  [
   1116352408, 1899447441, 3049323471, 3921009573, 961987163,
   1508970993, 2453635748, 2870763221, 3624381080, 310598401,
   607225278, 1426881987, 1925078388, 2162078206, 2614888103,
   3248222580, 3835390401, 4022224774, 264347078, 604807628,
   770255983, 1249150122, 1555081692, 1996064986, 2554220882,
   2821834349, 2952996808, 3210313671, 3336571891, 3584528711,
   113926993, 338241895, 666307205, 773529912, 1294757372,
   1396182291, 1695183700, 1986661051, 2177026350, 2456956037,
   2730485921, 2820302411, 3259730800, 3345764771, 3516065817,
   3600352804, 4094571909, 275423344, 430227734, 506948616,
   659060556, 883997877, 958139571, 1322822218, 1537002063,
   1747873779, 1955562222, 2024104815, 2227730452, 2361852424,
   2428436474, 2756734187, 3204031479, 3329325298]

/-- Initial hash state of SHA-256 (FIPS 180-4, written in decimal). -/
def shaH0 : List Nat :=
  [
   1779033703, 3144134277, 1013904242, 2773480762,
   1359893119, 2600822924, 528734635, 1541459225]

/-- Message schedule extension: append words 16 to 63. -/
def shaExtendAux : Nat → List Nat → List Nat
  | 0, w => w
  | n+1, w =>
    let i := w.length
    let s0 := (rotr32 7 (w.getD (i-15) 0)) ^^^ (rotr32 18 (w.getD (i-15) 0)) ^^^
              (w.getD (i-15) 0 / 2^3)
    let s1 := (rotr32 17 (w.getD (i-2) 0)) ^^^ (rotr32 19 (w.getD (i-2) 0)) ^^^
              (w.getD (i-2) 0 / 2^10)
    shaExtendAux n (w ++ [(w.getD (i-16) 0 + s0 + w.getD (i-7) 0 + s1) % 2^32])

/-- One compression round of SHA-256 on the state (a,b,c,d,e,f,g,h). -/
def shaRound (st : List Nat) (kw : Nat) : List Nat :=
  let a := st.getD 0 0
  let b := st.getD 1 0
  let c := st.getD 2 0
  let d := st.getD 3 0
  let e := st.getD 4 0
  let f := st.getD 5 0
  let g := st.getD 6 0
  let h := st.getD 7 0
  let s1 := (rotr32 6 e) ^^^ (rotr32 11 e) ^^^ (rotr32 25 e)
  let ch := (e &&& f) ^^^ ((2^32 - 1 - e) &&& g)
  let t1 := (h + s1 + ch + kw) % 2^32
  let s0 := (rotr32 2 a) ^^^ (rotr32 13 a) ^^^ (rotr32 22 a)
  let mj := (a &&& b) ^^^ (a &&& c) ^^^ (b &&& c)
  let t2 := (s0 + mj) % 2^32
  [(t1 + t2) % 2^32, a, b, c, (d + t1) % 2^32, e, f, g]

/-- Compress one 64 byte block into the hash state. -/
def shaBlock (hsh : List Nat) (block : List Nat) : List Nat :=
  let w0 := (List.range 16).map (fun i => readU32 block (4*i))
  let w := shaExtendAux 48 w0
  let st := (List.range 64).foldl
    (fun st i => shaRound st ((shaK.getD i 0 + w.getD i 0) % 2^32)) hsh
  (List.range 8).map (fun i => (hsh.getD i 0 + st.getD i 0) % 2^32)

/-- Split a padded message into 64 byte blocks. -/
def shaBlocks : Nat → List Nat → List (List Nat)
  | 0, _ => []
  | n+1, m => m.take 64 :: shaBlocks n (m.drop 64)

/-- SHA-256 digest (32 bytes) of a byte list. -/
def sha256Bytes (msg : List Nat) : List Nat :=
  let padLen := (64 - ((msg.length + 9) % 64)) % 64
  let padded := msg ++ [128] ++ List.replicate padLen 0 ++ u64be (8 * msg.length)
  let final := (shaBlocks (padded.length / 64) padded).foldl shaBlock shaH0
  (final.map u32be).flatten

/-- Hex digit characters used by fmtHash (0123456789abcdef). -/
def hexdigit (v : Nat) : Nat := if v < 10 then 48 + v else 87 + v

/-- Model of protocol.fmtHash: lowercase hex text of a byte list. -/
def fmtHash : List Nat → List Nat
  | [] => []
  | v :: rest => hexdigit (v / 16) :: hexdigit (v % 16) :: fmtHash rest

/-- Model of protocol.SHA256FileChunks: hash of the concatenation of the
chunks, rendered as 64 lowercase hex characters. -/
def SHA256FileChunks (chunks : List (List Nat)) : List Nat :=
  fmtHash (sha256Bytes chunks.flatten)

/-- Model of the local hexval closure of parseHexSha: value of one hex
character, accepting digits and both letter cases. -/
def hexval (r : Nat) : Option Nat :=
  if 48 ≤ r ∧ r ≤ 57 then some (r - 48)
  else if 97 ≤ r ∧ r ≤ 102 then some (r - 97 + 10)
  else if 65 ≤ r ∧ r ≤ 70 then some (r - 65 + 10)
  else none

/-- Loop of parseHexSha: decode the two characters of pair i into byte i
of the accumulator and advance, stopping at the first invalid character
with the accumulator as it stands at that point. The fuel argument counts
the remaining iterations of the for loop (32 - i), making the recursion
structural. -/
def parseHexShaLoop (s : List Nat) : Nat → List Nat → Nat → List Nat
  | 0, b, _ => b
  | fuel+1, b, i =>
    match hexval (s.getD (i*2) 0), hexval (s.getD (i*2+1) 0) with
    | some hi, some lo => parseHexShaLoop s fuel (b.set i (16 * hi + lo)) (i+1)
    | _, _ => b

/-- Model of protocol.parseHexSha: a 64 character hex string becomes 32
bytes; a string of any other length yields 32 zero bytes. -/
def parseHexSha (s : List Nat) : List Nat :=
  if s.length ≠ 64 then List.replicate 32 0
  else parseHexShaLoop s 32 (List.replicate 32 0) 0

/-! DATA header codec. -/

/-- Model of protocol.DataHeader; fields are the unsigned values of the
Go uint32/uint16 fields. -/
structure DataHeader where
  Seq : Nat
  Total : Nat
  Size : Nat
  CRC32 : Nat
deriving DecidableEq, Repr

/-- Size in bytes of the binary DATA header. -/
def dataHeaderSize : Nat := 2 + 1 + 1 + 4 + 4 + 2 + 4

/-- Model of protocol.HeaderSize. -/
def HeaderSize : Nat := dataHeaderSize

/-- Model of protocol.PackHeader: magic 'U','D', version 1, flags 0, then
seq, total, size, crc32 in network byte order. -/
def PackHeader (h : DataHeader) : List Nat :=
  [85, 68, 1, 0] ++ u32be h.Seq ++ u32be h.Total ++ u16be h.Size ++ u32be h.CRC32

/-- Model of protocol.UnpackHeader: length, magic and version checks, then
field extraction. -/
def UnpackHeader (b : List Nat) : Except String DataHeader :=
  if b.length < dataHeaderSize then .error "buffer curto para header"
  else if b.getD 0 0 ≠ 85 ∨ b.getD 1 0 ≠ 68 ∨ b.getD 2 0 ≠ 1 then
    .error "header inválido"
  else .ok ⟨readU32 b 4, readU32 b 8, readU16 b 12, readU32 b 14⟩

/-- Model of protocol.IsCtrl: a buffer is a control message when it begins
with the bytes 'U','C'. -/
def IsCtrl (b : List Nat) : Bool :=
  b.length ≥ 2 && b.getD 0 0 == 85 && b.getD 1 0 == 67

end protocol

namespace protocol

/-- Friendly type tags returned by DecodeCtrl (source constants TypeREQ
and friends). -/
def TypeREQ : String := "REQ"

/-- Tag of META frames. -/
def TypeMETA : String := "META"

/-- Tag of ERR frames. -/
def TypeERR : String := "ERR"

/-- Tag of EOF frames. -/
def TypeEOF : String := "EOF"

/-- Tag of NACK frames. -/
def TypeNACK : String := "NACK"

/-- Tag of LIST frames. -/
def TypeLIST : String := "LIST"

/-- Tag of LST frames. -/
def TypeLST : String := "LST"

/-- Model of protocol.Meta. Filename and SHA256 are byte lists (Go
strings); Size is the int64 file size and Chunk the int chunk size. -/
structure Meta where
  Filename : List Nat
  Total : Nat
  Size : Int
  SHA256 : List Nat
  Chunk : Int
deriving DecidableEq, Repr

/-- Model of protocol.ctrlHeader: magic 'U','C', version 1, type byte and
the payload length as uint16 (the Go conversion truncates, which u16be
reflects). -/
def ctrlHeader (t : Nat) (payloadLen : Nat) : List Nat :=
  [85, 67, 1, t] ++ u16be payloadLen

/-- Model of protocol.packREQ. -/
def packREQ (path : List Nat) : List Nat :=
  ctrlHeader 1 path.length ++ path

/-- Payload of a META frame:
total, size, chunk, filename length, filename, 32 sha bytes. -/
def metaPayload (m : Meta) : List Nat :=
  u32be m.Total ++ u64be ((m.Size % 2^64).toNat) ++
  u16be ((m.Chunk % 2^16).toNat) ++ u16be m.Filename.length ++
  m.Filename ++ parseHexSha m.SHA256

/-- Model of protocol.packMETA. -/
def packMETA (m : Meta) : List Nat :=
  ctrlHeader 2 (metaPayload m).length ++ metaPayload m

/-- Model of protocol.packERR: code u16 = 1, message length, message. -/
def packERR (msg : List Nat) : List Nat :=
  let payload := u16be 1 ++ u16be msg.length ++ msg
  ctrlHeader 3 payload.length ++ payload

/-- Model of protocol.packEOF. -/
def packEOF : List Nat := ctrlHeader 4 0

/-- Encoded sequence list of a NACK payload. -/
def nackSeqBytes (missing : List Nat) : List Nat :=
  (missing.map u32be).flatten

/-- Model of protocol.packNACK: count u16 then each sequence as u32. -/
def packNACK (missing : List Nat) : List Nat :=
  let payload := u16be missing.length ++ nackSeqBytes missing
  ctrlHeader 5 payload.length ++ payload

/-- Model of protocol.packLIST. -/
def packLIST : List Nat := ctrlHeader 6 0

/-- Encoded name list of a LST payload: per name a u16 length then the
name bytes. -/
def lstNameBytes (names : List (List Nat)) : List Nat :=
  (names.map (fun n => u16be n.length ++ n)).flatten

/-- Model of protocol.packLST: count u16 then the length prefixed names. -/
def packLST (names : List (List Nat)) : List Nat :=
  let payload := u16be names.length ++ lstNameBytes names
  ctrlHeader 7 payload.length ++ payload

/-- Model of protocol.parseCtrl: checks length, magic and version, then
returns the type byte and the payload of the declared length. -/
def parseCtrl (b : List Nat) : Except String (Nat × List Nat) :=
  if b.length < 6 ∨ b.getD 0 0 ≠ 85 ∨ b.getD 1 0 ≠ 67 ∨ b.getD 2 0 ≠ 1 then
    .error "ctrl header inválido"
  else
    let t := b.getD 3 0
    let l := readU16 b 4
    if b.length < 6 + l then .error "ctrl payload curto"
    else .ok (t, (b.drop 6).take l)

/-- Model of protocol.unpackREQ: the payload bytes are the path. -/
def unpackREQ (p : List Nat) : Except String (List Nat) := .ok p

/-- Model of protocol.unpackMETA. -/
def unpackMETA (p : List Nat) : Except String Meta :=
  if p.length < 4+8+2+2+32 then .error "META curto"
  else
    let total := readU32 p 0
    let size := int64OfU64 (readU64 p 4)
    let chunk : Int := (readU16 p 12 : Nat)
    let fnLen := readU16 p 14
    if p.length < 16 + fnLen + 32 then .error "META curto 2"
    else .ok ⟨(p.drop 16).take fnLen, total, size,
              fmtHash ((p.drop (16 + fnLen)).take 32), chunk⟩

/-- Model of protocol.unpackERR: reads the message length at offset 2 and
the message after offset 4 (the code field is ignored by the source). -/
def unpackERR (p : List Nat) : Except String (List Nat) :=
  if p.length < 4 then .error "ERR curto"
  else
    let ml := readU16 p 2
    if p.length < 4 + ml then .error "ERR curto 2"
    else .ok ((p.drop 4).take ml)

/-- Model of protocol.unpackNACK: count u16 then count sequences u32. -/
def unpackNACK (p : List Nat) : Except String (List Nat) :=
  if p.length < 2 then .error "NACK curto"
  else
    let n := readU16 p 0
    if p.length < 2 + 4 * n then .error "NACK curto 2"
    else .ok ((List.range n).map (fun i => readU32 p (2 + 4 * i)))

/-- Loop of protocol.unpackLST: read count names, each length prefixed,
advancing the offset. -/
def unpackLSTLoop (p : List Nat) (off : Nat) : Nat → Except String (List (List Nat))
  | 0 => .ok []
  | k+1 =>
    if p.length < off + 2 then .error "LST curto 2"
    else
      let l := readU16 p off
      if p.length < off + 2 + l then .error "LST curto 3"
      else
        match unpackLSTLoop p (off + 2 + l) k with
        | .ok rest => .ok ((p.drop (off + 2)).take l :: rest)
        | .error e => .error e

/-- Model of protocol.unpackLST. -/
def unpackLST (p : List Nat) : Except String (List (List Nat)) :=
  if p.length < 2 then .error "LST curto"
  else unpackLSTLoop p 2 (readU16 p 0)

/-- Public encoder CtrlREQ. -/
def CtrlREQ (path : List Nat) : List Nat := packREQ path

/-- Public encoder CtrlMETA. -/
def CtrlMETA (m : Meta) : List Nat := packMETA m

/-- Public encoder CtrlERR. -/
def CtrlERR (msg : List Nat) : List Nat := packERR msg

/-- Public encoder CtrlEOF. -/
def CtrlEOF : List Nat := packEOF

/-- Public encoder CtrlNACK. -/
def CtrlNACK (missing : List Nat) : List Nat := packNACK missing

/-- Public encoder CtrlLIST. -/
def CtrlLIST : List Nat := packLIST

/-- Public encoder CtrlLST. -/
def CtrlLST (names : List (List Nat)) : List Nat := packLST names

/-- Decoded control values, the tagged variant behind the any typed
result of DecodeCtrl. -/
inductive CtrlVal
  | reqV (path : List Nat)
  | metaV (m : Meta)
  | errV (msg : List Nat)
  | eofV
  | nackV (missing : List Nat)
  | listV
  | lstV (names : List (List Nat))
deriving DecidableEq, Repr

/-- Model of protocol.DecodeCtrl: parse the control header and dispatch
on the type byte. -/
def DecodeCtrl (b : List Nat) : Except String (String × CtrlVal) :=
  match parseCtrl b with
  | .error e => .error e
  | .ok (t, p) =>
    if t = 1 then
      match unpackREQ p with
      | .ok q => .ok (TypeREQ, .reqV q)
      | .error e => .error e
    else if t = 2 then
      match unpackMETA p with
      | .ok m => .ok (TypeMETA, .metaV m)
      | .error e => .error e
    else if t = 3 then
      match unpackERR p with
      | .ok m => .ok (TypeERR, .errV m)
      | .error e => .error e
    else if t = 4 then .ok (TypeEOF, .eofV)
    else if t = 5 then
      match unpackNACK p with
      | .ok nk => .ok (TypeNACK, .nackV nk)
      | .error e => .error e
    else if t = 6 then .ok (TypeLIST, .listV)
    else if t = 7 then
      match unpackLST p with
      | .ok lst => .ok (TypeLST, .lstV lst)
      | .error e => .error e
    else .error "tipo ctrl desconhecido"

end protocol

namespace gostd

/-- Go strings.HasPrefix over byte lists. -/
def hasPrefixB (s pre : List Nat) : Bool := s.take pre.length == pre

/-- ASCII white space recognised by strings.TrimSpace (the sources never
feed it other Unicode space). -/
def isSpaceB (c : Nat) : Bool := c == 32 || c == 9 || c == 10 || c == 13 || c == 11 || c == 12

/-- Go strings.TrimSpace over byte lists. -/
def trimSpace (s : List Nat) : List Nat :=
  ((s.dropWhile isSpaceB).reverse.dropWhile isSpaceB).reverse

/-- Go filepath.Base over byte lists with the slash separator: empty path
gives ".", trailing slashes are removed, then the last element is kept;
an all slash path gives "/". -/
def basename (p : List Nat) : List Nat :=
  if p = [] then [46]
  else
    let q := (p.reverse.dropWhile (fun c => c == 47)).reverse
    if q = [] then [47]
    else (q.reverse.takeWhile (fun c => c != 47)).reverse

/-- Split a byte list on the slash byte, keeping empty elements. -/
def splitSlash (p : List Nat) : List (List Nat) :=
  p.foldr
    (fun c acc =>
      if c = 47 then [] :: acc
      else
        match acc with
        | a :: t => (c :: a) :: t
        | [] => [[c]])
    [[]]

/-- Element processing of Go filepath.Clean (slash separator): empty and
dot elements vanish; a dotdot element pops a previous real element, is
dropped at the root, and accumulates at the front of a relative path;
other elements are kept. The accumulator holds the output elements in
reverse order. -/
def cleanElems (rooted : Bool) : List (List Nat) → List (List Nat) → List (List Nat)
  | [], acc => acc.reverse
  | e :: rest, acc =>
    if e = [] ∨ e = [46] then cleanElems rooted rest acc
    else if e = [46, 46] then
      match acc with
      | a :: acc2 =>
        if a = [46, 46] then cleanElems rooted rest (e :: a :: acc2)
        else cleanElems rooted rest acc2
      | [] =>
        if rooted then cleanElems rooted rest []
        else cleanElems rooted rest [e]
    else cleanElems rooted rest (e :: acc)

/-- Go filepath.Clean over byte lists with the slash separator (the Unix
build of the source). -/
def pathClean (p : List Nat) : List Nat :=
  if p = [] then [46]
  else
    let rooted := p.headD 0 = 47
    let es := cleanElems rooted (splitSlash p) []
    let out := (if rooted then [47] else []) ++ List.intercalate [47] es
    if out = [] then [46] else out

end gostd

namespace clientudp

/-- Model of clientudp.DropPolicy. The Go float64 rate and the float64
samples drawn from rand.Rand are modelled as rationals; the sample stream
is the sequence of values the seeded PRNG would produce, and idx counts
how many samples were consumed. dropped is the set of sequences already
dropped once. -/
structure DropPolicy where
  rate : ℚ
  samples : Nat → ℚ
  idx : Nat
  dropped : List Nat

/-- Model of clientudp.NewDrop: no policy when the rate is not positive,
otherwise a fresh policy with an empty dropped set. The seed argument of
the source determines the sample stream, which is passed here directly. -/
def NewDrop (rate : ℚ) (seed : Nat → ℚ) : Option DropPolicy :=
  if rate ≤ 0 then none
  else some { rate := rate, samples := seed, idx := 0, dropped := [] }

/-- Model of clientudp.DropPolicy.ShouldDrop on a non nil receiver:
never drop at non positive rate, never drop a sequence already in the
dropped set, otherwise draw a sample and drop exactly when it is below
the rate, recording the sequence. -/
def ShouldDrop (d : DropPolicy) (seq : Nat) : Bool × DropPolicy :=
  if d.rate ≤ 0 then (false, d)
  else if seq ∈ d.dropped then (false, d)
  else if d.samples d.idx < d.rate then
    (true, { d with dropped := seq :: d.dropped, idx := d.idx + 1 })
  else (false, { d with idx := d.idx + 1 })

/-- ShouldDrop including the nil receiver case of the Go method. -/
def ShouldDropOpt (o : Option DropPolicy) (seq : Nat) : Bool × Option DropPolicy :=
  match o with
  | none => (false, none)
  | some d =>
    let r := ShouldDrop d seq
    (r.1, some r.2)

/-- Number of true results a policy returns for sequence s over a call
trace qs, threading the policy state through the calls. -/
def countTrueFor (o : Option DropPolicy) (qs : List Nat) (s : Nat) : Nat :=
  match qs with
  | [] => 0
  | q :: rest =>
    let r := ShouldDropOpt o q
    (if q = s ∧ r.1 = true then 1 else 0) + countTrueFor r.2 rest s

/-- Model of a Go slice of bytes: the visible elements and the spare
bytes up to the capacity of the backing array. -/
structure GoSlice where
  data : List Nat
  residue : List Nat
deriving Repr

/-- Length of a Go slice. -/
def gLen (b : GoSlice) : Nat := b.data.length

/-- Capacity of a Go slice. -/
def gCap (b : GoSlice) : Nat := b.data.length + b.residue.length

/-- Backing array of a Go slice from its start. -/
def gArr (b : GoSlice) : List Nat := b.data ++ b.residue

/-- Go slice expression b[low:high]: legal when low ≤ high ≤ cap, even
beyond the length; otherwise a runtime panic, modelled as none. -/
def gSlice (b : GoSlice) (low high : Nat) : Option GoSlice :=
  if low ≤ high ∧ high ≤ gCap b then
    some ⟨((gArr b).take high).drop low, (gArr b).drop high⟩
  else none

/-- Client receive state threaded through processPacket: the drop policy,
the sequence to payload map (Go map, modelled as an association list with
most recent insertion first), and the byte and segment counters. -/
structure PPState where
  drop : Option DropPolicy
  recv : List (Nat × List Nat)
  bytesRecv : Nat
  segsRecv : Nat

/-- Result of one processPacket call: the EOF flag the source returns and
the updated state. -/
structure PPOut where
  isEOF : Bool
  st : PPState

/-- Model of clientudp.processPacket. Control frames only test for EOF.
For data frames the source slices b[:18] and b[18:] before checking the
length against the declared size; with fewer than 18 visible bytes the
second slice has its low bound beyond the length and Go panics, modelled
by none. Then, in order: declared size check, drop policy, CRC check,
duplicate check, store and count. -/
def processPacket (b : GoSlice) (st : PPState) : Option PPOut :=
  if protocol.IsCtrl b.data then
    match protocol.DecodeCtrl b.data with
    | .ok (t, _) => some ⟨t == protocol.TypeEOF, st⟩
    | .error _ => some ⟨false, st⟩
  else
    match gSlice b 0 18 with
    | none => none
    | some hb =>
      match protocol.UnpackHeader hb.data with
      | .error _ => some ⟨false, st⟩
      | .ok h =>
        match gSlice b 18 (gLen b) with
        | none => none
        | some _ =>
          if gLen b < 18 + h.Size then some ⟨false, st⟩
          else
            match gSlice b 18 (18 + h.Size) with
            | none => none
            | some pay =>
              let payload := pay.data
              if payload.length ≠ h.Size then some ⟨false, st⟩
              else
                let dr := ShouldDropOpt st.drop h.Seq
                if dr.1 then some ⟨false, { st with drop := dr.2 }⟩
                else if protocol.CRC32 payload ≠ h.CRC32 then
                  some ⟨false, { st with drop := dr.2 }⟩
                else if (st.recv.lookup h.Seq).isSome then
                  some ⟨false, { st with drop := dr.2 }⟩
                else
                  some ⟨false,
                    { drop := dr.2,
                      recv := (h.Seq, payload) :: st.recv,
                      bytesRecv := st.bytesRecv + payload.length,
                      segsRecv := st.segsRecv + 1 }⟩

/-- Model of clientudp.computeMissing: the sequences below total absent
from the receive map, in increasing order. -/
def computeMissing (total : Nat) (recv : List (Nat × List Nat)) : List Nat :=
  (List.range total).filter (fun i => (recv.lookup i).isNone)

end clientudp

namespace clientudp

/-- Byte text recv_ prepended to default output names. -/
def recvPrefixBytes : List Nat := [114, 101, 99, 118, 95]

/-- Byte text .corrupt appended on hash mismatch. -/
def dotCorruptBytes : List Nat := [46, 99, 111, 114, 114, 117, 112, 116]

/-- Ordered chunk sequence rebuilt from the receive map, as the source
loop chunks[i] = recv[i] over i below total (a missing key gives the Go
nil slice, the empty list; assembleAndVerify only reaches this with no
key missing). -/
def avChunks (total : Nat) (recv : List (Nat × List Nat)) : List (List Nat) :=
  (List.range total).map (fun i => (recv.lookup i).getD [])

/-- Output base path of assembleAndVerify: the given path, or
recv_ basename of the announced filename when the given path is blank. -/
def avBaseOut (meta : protocol.Meta) (outputPath : List Nat) : List Nat :=
  if gostd.trimSpace outputPath = [] then
    recvPrefixBytes ++ gostd.basename meta.Filename
  else outputPath

/-- Abstract state of the file system as assembleAndVerify observes it:
the set of paths that name existing directories. os.Create fails on such
a path; os.MkdirAll of the parent and the write loop are modelled as
succeeding. -/
structure FS where
  dirs : List (List Nat)
deriving DecidableEq, Repr

/-- Error cases of assembleAndVerify. -/
inductive AVErr
  | incomplete (missCount : Nat)
  | createFailed
  | shaMismatch
deriving DecidableEq, Repr

/-- Result of assembleAndVerify: the returned path and flag, the error if
any, and the files written with their content. -/
structure AVOut where
  path : List Nat
  ok : Bool
  err : Option AVErr
  writes : List (List Nat × List (List Nat))
deriving DecidableEq, Repr

/-- Model of clientudp.assembleAndVerify: fail with the incomplete count
when any sequence is missing; otherwise rebuild the ordered chunks,
compare their SHA-256 with the announced one, resolve the base path,
write to the base path on a match and to base path .corrupt on a
mismatch, failing in the latter case; creating the output file fails when
its path names an existing directory. -/
def assembleAndVerify (meta : protocol.Meta) (recv : List (Nat × List Nat))
    (outputPath : List Nat) (fs : FS) : AVOut :=
  let miss := computeMissing meta.Total recv
  if 0 < miss.length then ⟨[], false, some (.incomplete miss.length), []⟩
  else
    let chunks := avChunks meta.Total recv
    let computed := protocol.SHA256FileChunks chunks
    let isMatch := computed = meta.SHA256
    let baseOut := avBaseOut meta outputPath
    let finalPath := if isMatch then baseOut else baseOut ++ dotCorruptBytes
    if finalPath ∈ fs.dirs then ⟨[], false, some .createFailed, []⟩
    else if isMatch then ⟨finalPath, true, none, [(finalPath, chunks)]⟩
    else ⟨finalPath, false, some .shaMismatch, [(finalPath, chunks)]⟩

/-- META attempt budget of sendREQAndGetMeta: the configured Retries,
replaced by 3 when not positive. -/
def metaAttempts (retries : Int) : Int :=
  if retries ≤ 0 then 3 else retries

/-- NACK round budget of receiveData: the configured Retries, replaced by
3 when not positive. -/
def nackMaxRounds (retries : Int) : Int :=
  if retries ≤ 0 then 3 else retries

end clientudp

namespace serverudp

/-- Byte text of the error message caminho inválido (UTF-8). -/
def caminhoInvalido : List Nat :=
  [99, 97, 109, 105, 110, 104, 111, 32, 105, 110, 118, 195, 161, 108, 105, 100, 111]

/-- Byte text of the error message arquivo não encontrado (UTF-8). -/
def arquivoNaoEncontrado : List Nat :=
  [97, 114, 113, 117, 105, 118, 111, 32, 110, 195, 163, 111, 32, 101, 110,
   99, 111, 110, 116, 114, 97, 100, 111]

/-- Model of serverudp.fileEntry: announced metadata and the segmented
file content. -/
structure fileEntry where
  meta : protocol.Meta
  chunks : List (List Nat)

/-- Frames handleREQ can send to the requesting peer. -/
inductive ServerMsg
  | errMsg (text : List Nat)
  | metaMsg (m : protocol.Meta)
  | dataMsg (h : protocol.DataHeader) (payload : List Nat)
  | eofMsg

/-- Model of serverudp.handleREQ, projected to its observable effects:
the frames written to the peer and whether an entry was registered in the
active transfers map. Disk access (loadFile) is abstracted as the load
argument: none when stat or open fails or the path is a directory. The
sanitization mirrors the source: reject when the cleaned path is dot, is
dotdot, or has the dotdot prefix. -/
def handleREQ (reqPath : List Nat) (load : Option fileEntry) :
    List ServerMsg × Bool :=
  let safe := gostd.pathClean reqPath
  if safe == [46] || safe == [46, 46] || gostd.hasPrefixB safe [46, 46] then
    ([ServerMsg.errMsg caminhoInvalido], false)
  else
    match load with
    | none => ([ServerMsg.errMsg arquivoNaoEncontrado], false)
    | some entry =>
      let total := entry.chunks.length
      let dataMsgs := (List.range total).map (fun i =>
        let chunk := entry.chunks.getD i []
        ServerMsg.dataMsg
          ⟨i % 2^32, total % 2^32, chunk.length % 2^16, protocol.CRC32 chunk⟩
          chunk)
      (ServerMsg.metaMsg entry.meta :: dataMsgs ++ [ServerMsg.eofMsg], true)

end serverudp

namespace clientudp

/-- The dropped set only grows across a ShouldDrop call. -/
lemma shouldDrop_subset (d : DropPolicy) (q : Nat) :
    ∀ x ∈ d.dropped, x ∈ (ShouldDrop d q).2.dropped := by
  intro x hx
  unfold ShouldDrop
  split_ifs <;> simp_all [List.mem_cons]

/-- ShouldDrop never fires for a sequence already in the dropped set. -/
lemma shouldDrop_false_of_mem (d : DropPolicy) (q : Nat) (h : q ∈ d.dropped) :
    (ShouldDrop d q).1 = false := by
  unfold ShouldDrop
  split_ifs <;> simp_all

/-- When ShouldDrop fires, the sequence enters the dropped set. -/
lemma shouldDrop_true_mem (d : DropPolicy) (q : Nat)
    (h : (ShouldDrop d q).1 = true) : q ∈ (ShouldDrop d q).2.dropped := by
  unfold ShouldDrop at *
  split_ifs at h ⊢
  simp_all [List.mem_cons]


/-- A nil policy never counts a drop. -/
lemma countTrueFor_none (qs : List Nat) (s : Nat) : countTrueFor none qs s = 0 := by
  induction qs with
  | nil => rfl
  | cons q rest ih => simpa [countTrueFor, ShouldDropOpt] using ih

/-- After s is in the dropped set, no later call fires for s. -/
lemma countTrueFor_of_mem (s : Nat) :
    ∀ (qs : List Nat) (d : DropPolicy), s ∈ d.dropped →
      countTrueFor (some d) qs s = 0 := by
  intro qs
  induction qs with
  | nil => intro d _; rfl
  | cons q rest ih =>
    intro d hd
    have h1 : ¬ (q = s ∧ (ShouldDropOpt (some d) q).1 = true) := by
      rintro ⟨rfl, ht⟩
      have := shouldDrop_false_of_mem d q hd
      simp [ShouldDropOpt, this] at ht
    simp only [countTrueFor, if_neg h1, Nat.zero_add]
    exact ih _ (shouldDrop_subset d q s hd)

/-- Any policy produced by the constructor fires at most once per
sequence over any call trace. -/
lemma countTrueFor_le_one_some (s : Nat) :
    ∀ (qs : List Nat) (d : DropPolicy), countTrueFor (some d) qs s ≤ 1 := by
  intro qs
  induction qs with
  | nil => intro d; exact Nat.zero_le 1
  | cons q rest ih =>
    intro d
    by_cases hqs : q = s ∧ (ShouldDropOpt (some d) q).1 = true
    · obtain ⟨rfl, ht⟩ := hqs
      have ht2 : (ShouldDrop d q).1 = true := by
        simpa [ShouldDropOpt] using ht
      have hmem : q ∈ (ShouldDrop d q).2.dropped := shouldDrop_true_mem d q ht2
      have hrest : countTrueFor (some (ShouldDrop d q).2) rest q = 0 :=
        countTrueFor_of_mem q rest _ hmem
      simp [countTrueFor, ShouldDropOpt, ht2, hrest]
    · simp only [countTrueFor, if_neg hqs, Nat.zero_add]
      cases hsd : (ShouldDropOpt (some d) q).2 with
      | none => simp [countTrueFor_none]
      | some d2 => exact ih d2

end clientudp

/-- C1: a drop policy built by NewDrop fires at most once per sequence
across any call trace; NewDrop with a non positive rate returns the nil
policy, and ShouldDrop on the nil policy always answers false without
changing the policy. -/
theorem C1_single_shot_drop (rate : ℚ) (seed : Nat → ℚ) (s : Nat) (qs : List Nat) :
    clientudp.countTrueFor (clientudp.NewDrop rate seed) qs s ≤ 1 ∧
    (rate ≤ 0 → clientudp.NewDrop rate seed = none) ∧
    clientudp.ShouldDropOpt none s = (false, none) := by
  refine ⟨?_, ?_, rfl⟩
  · cases h : clientudp.NewDrop rate seed with
    | none => simp [clientudp.countTrueFor_none]
    | some d => exact clientudp.countTrueFor_le_one_some s qs d
  · intro h
    simp [clientudp.NewDrop, h]

/-- C1 witness: the theorem applied at rate 0, a constant sample stream,
sequence 0 and the trace [0, 0]. -/
theorem C1_single_shot_drop_witness :
    clientudp.countTrueFor (clientudp.NewDrop 0 (fun _ => 0)) [0, 0] 0 ≤ 1 ∧
    clientudp.NewDrop 0 (fun _ => 0) = none ∧
    clientudp.ShouldDropOpt none 0 = (false, none) :=
  ⟨(C1_single_shot_drop 0 (fun _ => 0) 0 [0, 0]).1,
   (C1_single_shot_drop 0 (fun _ => 0) 0 [0, 0]).2.1 (by norm_num),
   (C1_single_shot_drop 0 (fun _ => 0) 0 [0, 0]).2.2⟩

/-- C6: a request whose cleaned path is dot, dotdot, or begins with
dotdot is answered with exactly one ERR frame carrying caminho inválido,
with no entry registered and no META, DATA or EOF frame sent. -/
theorem C6_path_sanitization (reqPath : List Nat) (load : Option serverudp.fileEntry)
    (h : gostd.pathClean reqPath = [46] ∨ gostd.pathClean reqPath = [46, 46] ∨
         gostd.hasPrefixB (gostd.pathClean reqPath) [46, 46] = true) :
    serverudp.handleREQ reqPath load =
      ([serverudp.ServerMsg.errMsg serverudp.caminhoInvalido], false) := by
  unfold serverudp.handleREQ
  have hc : (gostd.pathClean reqPath == [46] ||
             gostd.pathClean reqPath == [46, 46] ||
             gostd.hasPrefixB (gostd.pathClean reqPath) [46, 46]) = true := by
    rcases h with h | h | h <;> simp [h]
  simp [hc]

/-- C6 witness: the theorem applied to the request path ../x with no file
available. -/
theorem C6_path_sanitization_witness :
    (gostd.pathClean [46, 46, 47, 120] = [46] ∨
     gostd.pathClean [46, 46, 47, 120] = [46, 46] ∨
     gostd.hasPrefixB (gostd.pathClean [46, 46, 47, 120]) [46, 46] = true) ∧
    serverudp.handleREQ [46, 46, 47, 120] none =
      ([serverudp.ServerMsg.errMsg serverudp.caminhoInvalido], false) :=
  ⟨by decide, C6_path_sanitization [46, 46, 47, 120] none (by decide)⟩

/-- C7 counterexample: with Retries 1 the client makes exactly one META
attempt, below the floor of three the claim asserts, and with Retries 2
the NACK budget is exactly two rounds. -/
theorem C7_retry_floor_cex :
    clientudp.metaAttempts 1 = 1 ∧ ¬ (3 ≤ clientudp.metaAttempts 1) ∧
    clientudp.nackMaxRounds 2 = 2 ∧ ¬ (3 ≤ clientudp.nackMaxRounds 2) := by
  refine ⟨rfl, by decide, rfl, by decide⟩

/-- C7 amended: the META attempt budget and the NACK round budget agree
for every configured Retries value, and both equal Retries itself when it
is positive, falling back to 3 only when Retries is zero or negative. -/
theorem C7_retry_floor_amended (retries : Int) :
    clientudp.metaAttempts retries = clientudp.nackMaxRounds retries ∧
    clientudp.metaAttempts retries = (if retries ≤ 0 then 3 else retries) := by
  exact ⟨rfl, rfl⟩

/-- C9: parseHexSha violates its contract on a 64 character input whose
third character is not hexadecimal: the first pair ff is already decoded
into the output, so the result is 255 followed by 31 zeros rather than 32
zero bytes. -/
theorem C9_parse_hex_partial_fill :
    ([102, 102] ++ List.replicate 62 122).length = 64 ∧
    protocol.parseHexSha ([102, 102] ++ List.replicate 62 122) =
      255 :: List.replicate 31 0 ∧
    protocol.parseHexSha ([102, 102] ++ List.replicate 62 122) ≠
      List.replicate 32 0 := by
  refine ⟨by decide, by decide, by decide⟩

set_option maxRecDepth 100000 in
/-- C8: the client faults on a 3 byte datagram beginning 'U','D',1 read
into its 1042 byte receive buffer. The header slice b[:18] is legal
because the capacity extends past the length, the magic and version
checks pass on the zeroed spare bytes, and then the slice b[18:] has its
low bound beyond the length, a Go runtime panic, modelled here as the
none result of processPacket, contradicting the silent drop the claim
states. -/
theorem C8_short_data_frame_panic :
    clientudp.processPacket ⟨[85, 68, 1], List.replicate 1039 0⟩
      ⟨none, [], 0, 0⟩ = none := by
  rfl

namespace protocol

/-- Reading back a 16 bit big endian field. -/
lemma readU16_u16be (v : Nat) (r : List Nat) :
    readU16 (u16be v ++ r) 0 = v % 2^16 := by
  simp only [readU16, u16be, List.cons_append, List.getD_cons_zero,
    List.getD_cons_succ]
  omega

/-- Reading back a 32 bit big endian field. -/
lemma readU32_u32be (v : Nat) (r : List Nat) :
    readU32 (u32be v ++ r) 0 = v % 2^32 := by
  simp only [readU32, u32be, List.cons_append, List.getD_cons_zero,
    List.getD_cons_succ]
  omega

/-- Reading back a 64 bit big endian field. -/
lemma readU64_u64be (v : Nat) (r : List Nat) :
    readU64 (u64be v ++ r) 0 = v % 2^64 := by
  simp only [readU64, u64be, List.cons_append, List.getD_cons_zero,
    List.getD_cons_succ]
  omega

/-- getD just past a prefix reads from the suffix. -/
lemma getD_append_len (xs ys : List Nat) (i : Nat) :
    (xs ++ ys).getD (xs.length + i) 0 = ys.getD i 0 := by
  rw [List.getD_append_right xs ys 0 (xs.length + i) (by omega)]
  congr 1
  omega

/-- readU16 just past a prefix reads from the suffix. -/
lemma readU16_shift (xs ys : List Nat) (i : Nat) :
    readU16 (xs ++ ys) (xs.length + i) = readU16 ys i := by
  unfold readU16
  rw [getD_append_len, show xs.length + i + 1 = xs.length + (i+1) by omega,
    getD_append_len]

/-- readU32 just past a prefix reads from the suffix. -/
lemma readU32_shift (xs ys : List Nat) (i : Nat) :
    readU32 (xs ++ ys) (xs.length + i) = readU32 ys i := by
  unfold readU32
  rw [getD_append_len,
    show xs.length + i + 1 = xs.length + (i+1) by omega, getD_append_len,
    show xs.length + i + 2 = xs.length + (i+2) by omega, getD_append_len,
    show xs.length + i + 3 = xs.length + (i+3) by omega, getD_append_len]

/-- readU64 just past a prefix reads from the suffix. -/
lemma readU64_shift (xs ys : List Nat) (i : Nat) :
    readU64 (xs ++ ys) (xs.length + i) = readU64 ys i := by
  unfold readU64
  rw [getD_append_len,
    show xs.length + i + 1 = xs.length + (i+1) by omega, getD_append_len,
    show xs.length + i + 2 = xs.length + (i+2) by omega, getD_append_len,
    show xs.length + i + 3 = xs.length + (i+3) by omega, getD_append_len,
    show xs.length + i + 4 = xs.length + (i+4) by omega, getD_append_len,
    show xs.length + i + 5 = xs.length + (i+5) by omega, getD_append_len,
    show xs.length + i + 6 = xs.length + (i+6) by omega, getD_append_len,
    show xs.length + i + 7 = xs.length + (i+7) by omega, getD_append_len]

end protocol

/-- C4: packing a DATA header yields exactly 18 bytes, and unpacking the
packed bytes succeeds and returns the original header, for every header
whose fields respect their wire widths. -/
theorem C4_header_roundtrip (h : protocol.DataHeader)
    (h1 : h.Seq < 2^32) (h2 : h.Total < 2^32) (h3 : h.Size < 2^16)
    (h4 : h.CRC32 < 2^32) :
    (protocol.PackHeader h).length = 18 ∧
    protocol.UnpackHeader (protocol.PackHeader h) = .ok h := by
  have hlen : (protocol.PackHeader h).length = 18 := by
    simp [protocol.PackHeader, protocol.u32be, protocol.u16be]
  refine ⟨hlen, ?_⟩
  have e1 : protocol.readU32 (protocol.PackHeader h) 4 = h.Seq := by
    unfold protocol.PackHeader
    simp only [List.append_assoc]
    rw [show (4 : Nat) = ([85, 68, 1, 0] : List Nat).length + 0 from rfl,
      protocol.readU32_shift, protocol.readU32_u32be, Nat.mod_eq_of_lt h1]
  have e2 : protocol.readU32 (protocol.PackHeader h) 8 = h.Total := by
    unfold protocol.PackHeader
    simp only [List.append_assoc]
    rw [show (8 : Nat) = ([85, 68, 1, 0] : List Nat).length + 4 from rfl,
      protocol.readU32_shift,
      show (4 : Nat) = (protocol.u32be h.Seq).length + 0 from rfl,
      protocol.readU32_shift, protocol.readU32_u32be, Nat.mod_eq_of_lt h2]
  have e3 : protocol.readU16 (protocol.PackHeader h) 12 = h.Size := by
    unfold protocol.PackHeader
    simp only [List.append_assoc]
    rw [show (12 : Nat) = ([85, 68, 1, 0] : List Nat).length + 8 from rfl,
      protocol.readU16_shift,
      show (8 : Nat) = (protocol.u32be h.Seq).length + 4 from rfl,
      protocol.readU16_shift,
      show (4 : Nat) = (protocol.u32be h.Total).length + 0 from rfl,
      protocol.readU16_shift, protocol.readU16_u16be, Nat.mod_eq_of_lt h3]
  have e4 : protocol.readU32 (protocol.PackHeader h) 14 = h.CRC32 := by
    unfold protocol.PackHeader
    simp only [List.append_assoc]
    rw [show (14 : Nat) = ([85, 68, 1, 0] : List Nat).length + 10 from rfl,
      protocol.readU32_shift,
      show (10 : Nat) = (protocol.u32be h.Seq).length + 6 from rfl,
      protocol.readU32_shift,
      show (6 : Nat) = (protocol.u32be h.Total).length + 2 from rfl,
      protocol.readU32_shift,
      show (2 : Nat) = (protocol.u16be h.Size).length + 0 from rfl,
      protocol.readU32_shift,
      ← List.append_nil (protocol.u32be h.CRC32),
      protocol.readU32_u32be, Nat.mod_eq_of_lt h4]
  unfold protocol.UnpackHeader
  rw [if_neg (by rw [hlen]; decide), if_neg (by push_neg; exact ⟨rfl, rfl, rfl⟩),
    e1, e2, e3, e4]

/-- C4 witness: the theorem applied to the header with seq 1, total 2,
size 3 and crc 4. -/
theorem C4_header_roundtrip_witness :
    (protocol.PackHeader ⟨1, 2, 3, 4⟩).length = 18 ∧
    protocol.UnpackHeader (protocol.PackHeader ⟨1, 2, 3, 4⟩) = .ok ⟨1, 2, 3, 4⟩ :=
  C4_header_roundtrip ⟨1, 2, 3, 4⟩ (by decide) (by decide) (by decide) (by decide)

namespace protocol

/-- Lowercase hex digit predicate (digits 0 to 9 and letters a to f),
the character class the claim allows for SHA256 strings. -/
def isLowerHex (c : Nat) : Bool :=
  decide ((48 ≤ c ∧ c ≤ 57) ∨ (97 ≤ c ∧ c ≤ 102))

/-- Value decoded from one pair of hex characters of s. -/
def pairVal (s : List Nat) (j : Nat) : Nat :=
  16 * (hexval (s.getD (j*2) 0)).getD 0 + (hexval (s.getD (j*2+1) 0)).getD 0

/-- Lowercase hex characters decode and re-encode to themselves. -/
lemma hexval_of_lower (c : Nat) (h : isLowerHex c = true) :
    ∃ v, v < 16 ∧ hexval c = some v ∧ hexdigit v = c := by
  simp only [isLowerHex, decide_eq_true_eq] at h
  rcases h with ⟨h1, h2⟩ | ⟨h1, h2⟩
  · refine ⟨c - 48, by omega, ?_, ?_⟩
    · unfold hexval
      rw [if_pos ⟨h1, h2⟩]
    · unfold hexdigit
      rw [if_pos (by omega)]
      omega
  · refine ⟨c - 97 + 10, by omega, ?_, ?_⟩
    · unfold hexval
      rw [if_neg (by omega), if_pos ⟨h1, h2⟩]
    · unfold hexdigit
      rw [if_neg (by omega)]
      omega

/-- The parse loop preserves the accumulator length. -/
lemma parseHexShaLoop_length (s : List Nat) :
    ∀ (fuel : Nat) (b : List Nat) (i : Nat),
      (parseHexShaLoop s fuel b i).length = b.length := by
  intro fuel
  induction fuel with
  | zero => intro b i; rfl
  | succ n ih =>
    intro b i
    cases h1 : hexval (s.getD (i*2) 0) with
    | none =>
      cases h2 : hexval (s.getD (i*2+1) 0) with
      | none => simp only [parseHexShaLoop, h1, h2]
      | some lo => simp only [parseHexShaLoop, h1, h2]
    | some hi =>
      cases h2 : hexval (s.getD (i*2+1) 0) with
      | none => simp only [parseHexShaLoop, h1, h2]
      | some lo =>
        simp only [parseHexShaLoop, h1, h2]
        rw [ih, List.length_set]

/-- parseHexSha always yields 32 bytes. -/
lemma parseHexSha_length (s : List Nat) : (parseHexSha s).length = 32 := by
  unfold parseHexSha
  split
  · simp
  · rw [parseHexShaLoop_length]
    simp

/-- Taking one more element of a list updated at the boundary index. -/
lemma take_succ_set (b : List Nat) :
    ∀ (i : Nat) (v : Nat), i < b.length →
      (b.set i v).take (i+1) = b.take i ++ [v] := by
  induction b with
  | nil => intro i v h; simp at h
  | cons a t ih =>
    intro i v h
    cases i with
    | zero => simp
    | succ n =>
      simp only [List.set_cons_succ, List.take_succ_cons, List.cons_append]
      rw [ih n v (by simpa using h)]

/-- The parse loop on all valid pairs overwrites positions i onward with
the decoded pair values. -/
lemma parseHexShaLoop_spec (s : List Nat)
    (hval : ∀ j, j < 64 → isLowerHex (s.getD j 0) = true) :
    ∀ (fuel i : Nat) (b : List Nat), i + fuel = 32 → b.length = 32 →
      parseHexShaLoop s fuel b i =
        b.take i ++ (List.range fuel).map (fun j => pairVal s (i + j)) := by
  intro fuel
  induction fuel with
  | zero =>
    intro i b hi hb
    simp [parseHexShaLoop, List.take_of_length_le (by omega : b.length ≤ i)]
  | succ n ih =>
    intro i b hi hb
    obtain ⟨v1, hlt1, he1, _⟩ := hexval_of_lower _ (hval (i*2) (by omega))
    obtain ⟨v2, hlt2, he2, _⟩ := hexval_of_lower _ (hval (i*2+1) (by omega))
    simp only [parseHexShaLoop, he1, he2]
    rw [ih (i+1) _ (by omega) (by simp [hb])]
    rw [take_succ_set b i _ (by omega)]
    rw [List.range_succ_eq_map, List.map_cons, List.map_map, List.append_assoc,
      List.singleton_append]
    congr 1
    have hp : pairVal s (i + 0) = 16 * v1 + v2 := by
      unfold pairVal
      rw [Nat.add_zero, he1, he2]
      rfl
    congr 1
    · exact hp.symm
    · apply List.map_congr_left
      intro j _
      show pairVal s (i + 1 + j) = pairVal s (i + Nat.succ j)
      congr 1
      omega

/-- parseHexSha of an all lowercase hex string of length 64 is the list
of its 32 decoded pair values. -/
lemma parseHexSha_spec (s : List Nat) (h64 : s.length = 64)
    (hval : ∀ j, j < 64 → isLowerHex (s.getD j 0) = true) :
    parseHexSha s = (List.range 32).map (fun j => pairVal s j) := by
  unfold parseHexSha
  rw [if_neg (by omega)]
  rw [parseHexShaLoop_spec s hval 32 0 _ (by omega) (by simp)]
  simp

/-- Re-encoding the decoded pair values gives back the hex string. -/
lemma fmtHash_map_range :
    ∀ (n : Nat) (s : List Nat), s.length = 2*n →
      (∀ j, j < 2*n → isLowerHex (s.getD j 0) = true) →
      fmtHash ((List.range n).map (fun j => pairVal s j)) = s := by
  intro n
  induction n with
  | zero =>
    intro s h _
    rw [List.length_eq_zero] at h
    subst h
    rfl
  | succ m ih =>
    intro s hlen hval
    match s, hlen with
    | c1 :: c2 :: t, hlen =>
      obtain ⟨v1, hlt1, he1, hd1⟩ := hexval_of_lower c1 (hval 0 (by omega))
      obtain ⟨v2, hlt2, he2, hd2⟩ := hexval_of_lower c2 (hval 1 (by omega))
      rw [List.range_succ_eq_map, List.map_cons, List.map_map]
      have hp0 : pairVal (c1 :: c2 :: t) 0 = 16 * v1 + v2 := by
        simp [pairVal, he1, he2]
      have hmap : List.map ((fun j => pairVal (c1 :: c2 :: t) j) ∘ Nat.succ)
            (List.range m) = List.map (fun j => pairVal t j) (List.range m) := by
        apply List.map_congr_left
        intro j _
        show pairVal (c1 :: c2 :: t) (Nat.succ j) = pairVal t j
        unfold pairVal
        have e1 : Nat.succ j * 2 = j * 2 + 1 + 1 := by omega
        rw [e1]
        simp only [List.getD_cons_succ]
      rw [hp0, hmap, fmtHash]
      have hq1 : (16 * v1 + v2) / 16 = v1 := by omega
      have hq2 : (16 * v1 + v2) % 16 = v2 := by omega
      rw [hq1, hq2, hd1, hd2]
      have ht : fmtHash (List.map (fun j => pairVal t j) (List.range m)) = t := by
        apply ih t (by simp at hlen; omega)
        intro j hj
        have := hval (j + 2) (by omega)
        simpa [List.getD_cons_succ] using this
      rw [ht]

/-- Round trip of parseHexSha and fmtHash on 64 character lowercase hex
strings. -/
lemma fmtHash_parseHexSha (s : List Nat) (h64 : s.length = 64)
    (hval : ∀ j, j < 64 → isLowerHex (s.getD j 0) = true) :
    fmtHash (parseHexSha s) = s := by
  rw [parseHexSha_spec s h64 hval]
  exact fmtHash_map_range 32 s (by omega) (by intro j hj; exact hval j (by omega))

end protocol

namespace protocol

/-- parseCtrl of a packed control frame: the stored type byte comes back,
and the payload is truncated to the declared length, the payload length
reduced modulo 2^16 by the uint16 conversion of ctrlHeader. -/
lemma parseCtrl_pack (t L : Nat) (p : List Nat) (hp : p.length = L) :
    parseCtrl (ctrlHeader t L ++ p) = .ok (t, p.take (L % 2^16)) := by
  have hb : ctrlHeader t L ++ p = [85, 67, 1, t] ++ (u16be L ++ p) := by
    simp [ctrlHeader]
  have hlen : (ctrlHeader t L ++ p).length = 6 + L := by
    simp [ctrlHeader, u16be, hp]
    omega
  have ht : (ctrlHeader t L ++ p).getD 3 0 = t := by rw [hb]; rfl
  have h0 : (ctrlHeader t L ++ p).getD 0 0 = 85 := by rw [hb]; rfl
  have h1 : (ctrlHeader t L ++ p).getD 1 0 = 67 := by rw [hb]; rfl
  have h2 : (ctrlHeader t L ++ p).getD 2 0 = 1 := by rw [hb]; rfl
  have hread : readU16 (ctrlHeader t L ++ p) 4 = L % 2^16 := by
    rw [hb, show (4 : Nat) = ([85, 67, 1, t] : List Nat).length + 0 from rfl,
      readU16_shift, readU16_u16be]
  have hdrop : (ctrlHeader t L ++ p).drop 6 = p := by
    rw [show ctrlHeader t L ++ p = ([85, 67, 1, t] ++ u16be L) ++ p by
        simp [ctrlHeader],
      show (6 : Nat) = ([85, 67, 1, t] ++ u16be L).length by simp [u16be],
      List.drop_left]
  simp only [parseCtrl]
  rw [if_neg (by push_neg; exact ⟨by omega, h0, h1, h2⟩), hread, ht, hdrop,
    if_neg (by omega)]

/-- Decoding a packed REQ returns the path. -/
lemma decode_CtrlREQ (path : List Nat) (h : path.length ≤ 65535) :
    DecodeCtrl (CtrlREQ path) = .ok (TypeREQ, .reqV path) := by
  have hp := parseCtrl_pack 1 path.length path rfl
  rw [Nat.mod_eq_of_lt (by omega), List.take_length] at hp
  simp only [DecodeCtrl, CtrlREQ, packREQ] at *
  rw [hp]
  rfl

/-- Decoding a packed EOF. -/
lemma decode_CtrlEOF : DecodeCtrl CtrlEOF = .ok (TypeEOF, .eofV) := by
  have hp := parseCtrl_pack 4 0 [] rfl
  simp only [DecodeCtrl, CtrlEOF, packEOF] at *
  rw [show ctrlHeader 4 0 = ctrlHeader 4 0 ++ [] by simp, hp]
  rfl

/-- DecodeCtrl dispatch for type byte 2 (META). -/
lemma DecodeCtrl_meta (b p : List Nat) (hp : parseCtrl b = .ok (2, p)) :
    DecodeCtrl b = (match unpackMETA p with
      | .ok m => .ok (TypeMETA, .metaV m)
      | .error e => .error e) := by
  unfold DecodeCtrl
  rw [hp]
  rfl

/-- DecodeCtrl dispatch for type byte 3 (ERR). -/
lemma DecodeCtrl_err (b p : List Nat) (hp : parseCtrl b = .ok (3, p)) :
    DecodeCtrl b = (match unpackERR p with
      | .ok m => .ok (TypeERR, .errV m)
      | .error e => .error e) := by
  unfold DecodeCtrl
  rw [hp]
  rfl

/-- DecodeCtrl dispatch for type byte 5 (NACK). -/
lemma DecodeCtrl_nack (b p : List Nat) (hp : parseCtrl b = .ok (5, p)) :
    DecodeCtrl b = (match unpackNACK p with
      | .ok nk => .ok (TypeNACK, .nackV nk)
      | .error e => .error e) := by
  unfold DecodeCtrl
  rw [hp]
  rfl

/-- DecodeCtrl dispatch for type byte 7 (LST). -/
lemma DecodeCtrl_lst (b p : List Nat) (hp : parseCtrl b = .ok (7, p)) :
    DecodeCtrl b = (match unpackLST p with
      | .ok lst => .ok (TypeLST, .lstV lst)
      | .error e => .error e) := by
  unfold DecodeCtrl
  rw [hp]
  rfl

/-- Decoding a packed ERR returns the message when it fits the wire. -/
lemma decode_CtrlERR (msg : List Nat) (h : msg.length ≤ 65531) :
    DecodeCtrl (CtrlERR msg) = .ok (TypeERR, .errV msg) := by
  have hplen : (u16be 1 ++ u16be msg.length ++ msg).length = 4 + msg.length := by
    simp [u16be]
    omega
  have hp := parseCtrl_pack 3 (4 + msg.length)
    (u16be 1 ++ u16be msg.length ++ msg) hplen
  rw [Nat.mod_eq_of_lt (by omega),
    show (u16be 1 ++ u16be msg.length ++ msg).take (4 + msg.length) =
        u16be 1 ++ u16be msg.length ++ msg from by
      rw [← hplen]
      exact List.take_length _] at hp
  have hread : readU16 (u16be 1 ++ u16be msg.length ++ msg) 2 = msg.length := by
    rw [List.append_assoc, show (2 : Nat) = (u16be 1).length + 0 from rfl,
      readU16_shift, readU16_u16be, Nat.mod_eq_of_lt (by omega)]
  have hdrop : (u16be 1 ++ u16be msg.length ++ msg).drop 4 = msg := by
    rw [show (4 : Nat) = (u16be 1 ++ u16be msg.length).length by simp [u16be],
      List.drop_left]
  have hunpack : unpackERR (u16be 1 ++ u16be msg.length ++ msg) = .ok msg := by
    simp only [unpackERR, hread]
    rw [if_neg (by omega), if_neg (by omega), hdrop, List.take_length]
  have hb : CtrlERR msg = ctrlHeader 3 (4 + msg.length) ++
      (u16be 1 ++ u16be msg.length ++ msg) := by
    simp only [CtrlERR, packERR, hplen]
  rw [hb, DecodeCtrl_err _ _ hp, hunpack]

end protocol

namespace protocol

/-- Length of the META payload: a 48 byte fixed part plus the filename. -/
lemma metaPayload_length (m : Meta) :
    (metaPayload m).length = 48 + m.Filename.length := by
  simp [metaPayload, u32be, u64be, u16be, parseHexSha_length]
  omega

/-- Unpacking a built META payload returns the original record, for field
values within their wire widths and a 64 character lowercase hex hash. -/
lemma unpackMETA_metaPayload (m : Meta)
    (hfn : m.Filename.length ≤ 65535)
    (htot : m.Total < 2^32)
    (hsz0 : 0 ≤ m.Size) (hsz : m.Size < 2^63)
    (hck0 : 0 ≤ m.Chunk) (hck : m.Chunk < 2^16)
    (hsha : m.SHA256.length = 64)
    (hshav : ∀ j, j < 64 → isLowerHex (m.SHA256.getD j 0) = true) :
    unpackMETA (metaPayload m) = .ok m := by
  have hL := metaPayload_length m
  have hassoc : metaPayload m =
      u32be m.Total ++ (u64be ((m.Size % 2^64).toNat) ++
        (u16be ((m.Chunk % 2^16).toNat) ++ (u16be m.Filename.length ++
          (m.Filename ++ parseHexSha m.SHA256)))) := by
    simp [metaPayload, List.append_assoc]
  have hemod : m.Size % (2^64 : Int) = m.Size :=
    Int.emod_eq_of_lt hsz0 (hsz.trans (by norm_num))
  have hcke : m.Chunk % (2^16 : Int) = m.Chunk := Int.emod_eq_of_lt hck0 hck
  have hszN : (m.Size % 2^64).toNat < 2^63 := by rw [hemod]; omega
  have hckN : (m.Chunk % 2^16).toNat < 2^16 := by rw [hcke]; omega
  have r0 : readU32 (metaPayload m) 0 = m.Total := by
    rw [hassoc, readU32_u32be, Nat.mod_eq_of_lt htot]
  have r4 : readU64 (metaPayload m) 4 = (m.Size % 2^64).toNat := by
    rw [hassoc, show (4 : Nat) = (u32be m.Total).length + 0 from rfl,
      readU64_shift, readU64_u64be, Nat.mod_eq_of_lt (by omega)]
  have r12 : readU16 (metaPayload m) 12 = (m.Chunk % 2^16).toNat := by
    rw [hassoc, show (12 : Nat) = (u32be m.Total).length + 8 from rfl,
      readU16_shift,
      show (8 : Nat) = (u64be ((m.Size % 2^64).toNat)).length + 0 from rfl,
      readU16_shift, readU16_u16be, Nat.mod_eq_of_lt hckN]
  have r14 : readU16 (metaPayload m) 14 = m.Filename.length := by
    rw [hassoc, show (14 : Nat) = (u32be m.Total).length + 10 from rfl,
      readU16_shift,
      show (10 : Nat) = (u64be ((m.Size % 2^64).toNat)).length + 2 from rfl,
      readU16_shift,
      show (2 : Nat) = (u16be ((m.Chunk % 2^16).toNat)).length + 0 from rfl,
      readU16_shift, readU16_u16be, Nat.mod_eq_of_lt (by omega)]
  have hfn16 : (metaPayload m).drop 16 = m.Filename ++ parseHexSha m.SHA256 := by
    rw [show metaPayload m =
        (u32be m.Total ++ u64be ((m.Size % 2^64).toNat) ++
         u16be ((m.Chunk % 2^16).toNat) ++ u16be m.Filename.length) ++
        (m.Filename ++ parseHexSha m.SHA256) from by
      simp [metaPayload, List.append_assoc]]
    exact List.drop_left' (by simp [u32be, u64be, u16be])
  have hsha32 : (metaPayload m).drop (16 + m.Filename.length) =
      parseHexSha m.SHA256 := by
    rw [show metaPayload m =
        (u32be m.Total ++ u64be ((m.Size % 2^64).toNat) ++
         u16be ((m.Chunk % 2^16).toNat) ++ u16be m.Filename.length ++
         m.Filename) ++ parseHexSha m.SHA256 from by
      simp [metaPayload, List.append_assoc]]
    exact List.drop_left' (by simp [u32be, u64be, u16be]; omega)
  have hint : int64OfU64 ((m.Size % 2^64).toNat) = m.Size := by
    unfold int64OfU64
    rw [if_pos hszN, hemod]
    exact Int.toNat_of_nonneg hsz0
  have hchunk : (((m.Chunk % 2^16).toNat : Nat) : Int) = m.Chunk := by
    rw [hcke]
    exact Int.toNat_of_nonneg hck0
  simp only [unpackMETA, r0, r4, r12, r14, hint]
  rw [if_neg (by omega), if_neg (by omega)]
  rw [hfn16, hsha32]
  rw [show (m.Filename ++ parseHexSha m.SHA256).take m.Filename.length =
      m.Filename from List.take_left m.Filename (parseHexSha m.SHA256)]
  rw [show (parseHexSha m.SHA256).take 32 = parseHexSha m.SHA256 from by
    have hh := List.take_length (parseHexSha m.SHA256)
    rw [parseHexSha_length] at hh
    exact hh]
  rw [fmtHash_parseHexSha m.SHA256 hsha hshav, hchunk]

/-- Decoding a packed META returns the original record when the filename
keeps the whole payload within the 16 bit declared length. -/
lemma decode_CtrlMETA (m : Meta)
    (hfn : m.Filename.length ≤ 65487)
    (htot : m.Total < 2^32)
    (hsz0 : 0 ≤ m.Size) (hsz : m.Size < 2^63)
    (hck0 : 0 ≤ m.Chunk) (hck : m.Chunk < 2^16)
    (hsha : m.SHA256.length = 64)
    (hshav : ∀ j, j < 64 → isLowerHex (m.SHA256.getD j 0) = true) :
    DecodeCtrl (CtrlMETA m) = .ok (TypeMETA, .metaV m) := by
  have hL := metaPayload_length m
  have hp := parseCtrl_pack 2 (metaPayload m).length (metaPayload m) rfl
  rw [Nat.mod_eq_of_lt (by omega), List.take_length] at hp
  rw [show CtrlMETA m = ctrlHeader 2 (metaPayload m).length ++ metaPayload m
      from rfl]
  rw [DecodeCtrl_meta _ _ hp]
  rw [unpackMETA_metaPayload m (by omega) htot hsz0 hsz hck0 hck hsha hshav]

end protocol

namespace protocol

/-- getD below the cut of a take reads the original list. -/
lemma getD_take (xs : List Nat) (k i : Nat) (h : i < k) :
    (xs.take k).getD i 0 = xs.getD i 0 := by
  rw [List.getD_eq_getElem?_getD, List.getD_eq_getElem?_getD, List.getElem?_take,
    if_pos h]

/-- Length of the encoded NACK sequence list: four bytes per entry. -/
lemma nackSeqBytes_length (missing : List Nat) :
    (nackSeqBytes missing).length = 4 * missing.length := by
  induction missing with
  | nil => rfl
  | cons a t ih =>
    simp only [nackSeqBytes, List.map_cons, List.flatten_cons, List.length_append,
      List.length_cons] at *
    simp [u32be, ih]
    omega

/-- The encoded sequence list splits at its head. -/
lemma nackSeqBytes_cons (a : Nat) (t : List Nat) :
    nackSeqBytes (a :: t) = u32be a ++ nackSeqBytes t := by
  simp [nackSeqBytes]

/-- Entry i of the encoded NACK sequence list. -/
lemma readU32_nackSeqBytes (missing : List Nat) :
    ∀ i, i < missing.length →
      readU32 (nackSeqBytes missing) (4 * i) = missing.getD i 0 % 2^32 := by
  induction missing with
  | nil => intro i h; simp at h
  | cons a t ih =>
    intro i h
    cases i with
    | zero =>
      rw [nackSeqBytes_cons, Nat.mul_zero, readU32_u32be]
      rfl
    | succ j =>
      rw [nackSeqBytes_cons,
        show 4 * (j + 1) = (u32be a).length + 4 * j from by simp [u32be]; omega,
        readU32_shift, ih j (by simpa using h), List.getD_cons_succ]

/-- Unpacking a built NACK payload returns the original sequence list when
the count fits its 16 bit field and the entries fit 32 bits. -/
lemma unpackNACK_pack (missing : List Nat) (hn : missing.length ≤ 65535)
    (hv : ∀ e ∈ missing, e < 2^32) :
    unpackNACK (u16be missing.length ++ nackSeqBytes missing) = .ok missing := by
  have hplen : (u16be missing.length ++ nackSeqBytes missing).length =
      2 + 4 * missing.length := by
    simp [u16be, nackSeqBytes_length]
    omega
  have hcount : readU16 (u16be missing.length ++ nackSeqBytes missing) 0 =
      missing.length := by
    rw [readU16_u16be, Nat.mod_eq_of_lt (by omega)]
  simp only [unpackNACK, hcount]
  rw [if_neg (by omega), if_neg (by omega)]
  congr 1
  apply List.ext_getElem
  · simp
  · intro i h1 h2
    simp only [List.getElem_map, List.getElem_range]
    rw [show 2 + 4 * i = (u16be missing.length).length + 4 * i from by
        simp [u16be],
      readU32_shift, readU32_nackSeqBytes missing i (by simpa using h1),
      List.getD_eq_getElem missing 0 (by simpa using h1),
      Nat.mod_eq_of_lt (hv _ (List.getElem_mem _))]

/-- Decoding a packed NACK with at most 16383 entries returns the exact
sequence list. -/
lemma decode_CtrlNACK_ok (missing : List Nat) (hn : missing.length ≤ 16383)
    (hv : ∀ e ∈ missing, e < 2^32) :
    DecodeCtrl (CtrlNACK missing) = .ok (TypeNACK, .nackV missing) := by
  have hplen : (u16be missing.length ++ nackSeqBytes missing).length =
      2 + 4 * missing.length := by
    simp [u16be, nackSeqBytes_length]
    omega
  have hp := parseCtrl_pack 5 (u16be missing.length ++ nackSeqBytes missing).length
    (u16be missing.length ++ nackSeqBytes missing) rfl
  rw [Nat.mod_eq_of_lt (by omega), List.take_length] at hp
  rw [show CtrlNACK missing = ctrlHeader 5
      (u16be missing.length ++ nackSeqBytes missing).length ++
      (u16be missing.length ++ nackSeqBytes missing) from rfl]
  rw [DecodeCtrl_nack _ _ hp, unpackNACK_pack missing (by omega) hv]

/-- Decoding a packed NACK with more than 16383 entries never returns the
original list: the declared payload length wraps modulo 2^16, so the
decoder either fails its length check or, past 65535 entries, returns a
list of count modulo 2^16 entries, shorter than the original. -/
lemma decode_CtrlNACK_overflow (missing : List Nat)
    (hn : 16383 < missing.length) :
    DecodeCtrl (CtrlNACK missing) ≠ .ok (TypeNACK, .nackV missing) := by
  have hplen : (u16be missing.length ++ nackSeqBytes missing).length =
      2 + 4 * missing.length := by
    simp [u16be, nackSeqBytes_length]
    omega
  have hp := parseCtrl_pack 5 (2 + 4 * missing.length)
    (u16be missing.length ++ nackSeqBytes missing) hplen
  rw [show CtrlNACK missing = ctrlHeader 5
      (u16be missing.length ++ nackSeqBytes missing).length ++
      (u16be missing.length ++ nackSeqBytes missing) from rfl, hplen]
  rw [DecodeCtrl_nack _ _ hp]
  set l := (2 + 4 * missing.length) % 2^16 with hl
  set q := (u16be missing.length ++ nackSeqBytes missing).take l with hqdef
  have hql : q.length = l := by
    rw [hqdef, List.length_take, hplen]
    omega
  have hl2 : 2 ≤ l := by omega
  have hqcount : readU16 q 0 = missing.length % 2^16 := by
    unfold readU16
    rw [hqdef, getD_take _ _ _ (by omega), getD_take _ _ _ (by omega)]
    have := readU16_u16be missing.length (nackSeqBytes missing)
    unfold readU16 at this
    omega
  rcases hq : unpackNACK q with e | lst
  · intro hcontra
    exact Except.noConfusion hcontra
  · intro hcontra
    have hcontra2 : Except.ok (ε := String) (TypeNACK, CtrlVal.nackV lst) =
        Except.ok (TypeNACK, CtrlVal.nackV missing) := hcontra
    have hlst : lst = missing := by
      simp only [Except.ok.injEq, Prod.mk.injEq, CtrlVal.nackV.injEq,
        true_and] at hcontra2
      exact hcontra2
    have hle : lst.length = missing.length := by rw [hlst]
    simp only [unpackNACK, hqcount] at hq
    rw [if_neg (by omega)] at hq
    by_cases hchk : q.length < 2 + 4 * (missing.length % 2^16)
    · rw [if_pos hchk] at hq
      exact Except.noConfusion hq
    · rw [if_neg hchk] at hq
      injection hq with h5
      have hlength := congrArg List.length h5
      simp only [List.length_map, List.length_range] at hlength
      omega

end protocol

namespace protocol

/-- The encoded LST name list splits at its head. -/
lemma lstNameBytes_cons (nm : List Nat) (rest : List (List Nat)) :
    lstNameBytes (nm :: rest) = (u16be nm.length ++ nm) ++ lstNameBytes rest := by
  simp [lstNameBytes]

/-- The LST loop at a given offset decodes the names encoded there. -/
lemma unpackLSTLoop_pack :
    ∀ (names : List (List Nat)) (pre : List Nat),
      (∀ nm ∈ names, nm.length ≤ 65535) →
      unpackLSTLoop (pre ++ lstNameBytes names) pre.length names.length =
        .ok names := by
  intro names
  induction names with
  | nil => intro pre _; rfl
  | cons nm rest ih =>
    intro pre hb
    have hnm : nm.length ≤ 65535 := hb nm (List.mem_cons_self nm rest)
    have hlen : (pre ++ lstNameBytes (nm :: rest)).length =
        pre.length + 2 + nm.length + (lstNameBytes rest).length := by
      simp [lstNameBytes_cons, u16be]
      omega
    have hread : readU16 (pre ++ lstNameBytes (nm :: rest)) pre.length =
        nm.length := by
      have hs := readU16_shift pre (lstNameBytes (nm :: rest)) 0
      rw [Nat.add_zero] at hs
      rw [hs, lstNameBytes_cons, List.append_assoc, readU16_u16be,
        Nat.mod_eq_of_lt (by omega)]
    have hdrop : (pre ++ lstNameBytes (nm :: rest)).drop (pre.length + 2) =
        nm ++ lstNameBytes rest := by
      rw [show pre ++ lstNameBytes (nm :: rest) =
          (pre ++ u16be nm.length) ++ (nm ++ lstNameBytes rest) from by
        rw [lstNameBytes_cons]
        simp [List.append_assoc]]
      exact List.drop_left' (by simp [u16be])
    have hrec : unpackLSTLoop (pre ++ lstNameBytes (nm :: rest))
        (pre.length + 2 + nm.length) rest.length = .ok rest := by
      have hre : pre ++ lstNameBytes (nm :: rest) =
          (pre ++ u16be nm.length ++ nm) ++ lstNameBytes rest := by
        rw [lstNameBytes_cons]
        simp [List.append_assoc]
      have hl2 : (pre ++ u16be nm.length ++ nm).length =
          pre.length + 2 + nm.length := by
        simp [u16be]
        omega
      rw [hre, ← hl2]
      exact ih (pre ++ u16be nm.length ++ nm)
        (fun x hx => hb x (List.mem_cons_of_mem _ hx))
    show unpackLSTLoop (pre ++ lstNameBytes (nm :: rest)) pre.length
      (rest.length + 1) = .ok (nm :: rest)
    simp only [unpackLSTLoop, hread]
    rw [if_neg (by omega), if_neg (by omega), hdrop, hrec,
      List.take_left nm (lstNameBytes rest)]

/-- Decoding a packed LST returns the exact name list when the counts and
lengths fit their wire fields. -/
lemma decode_CtrlLST (names : List (List Nat))
    (hcount : names.length ≤ 65535)
    (heach : ∀ nm ∈ names, nm.length ≤ 65535)
    (htotal : 2 + (lstNameBytes names).length ≤ 65535) :
    DecodeCtrl (CtrlLST names) = .ok (TypeLST, .lstV names) := by
  have hplen : (u16be names.length ++ lstNameBytes names).length =
      2 + (lstNameBytes names).length := by
    simp [u16be]
    omega
  have hp := parseCtrl_pack 7 (u16be names.length ++ lstNameBytes names).length
    (u16be names.length ++ lstNameBytes names) rfl
  rw [Nat.mod_eq_of_lt (by omega), List.take_length] at hp
  rw [show CtrlLST names = ctrlHeader 7
      (u16be names.length ++ lstNameBytes names).length ++
      (u16be names.length ++ lstNameBytes names) from rfl]
  rw [DecodeCtrl_lst _ _ hp]
  have hcount2 : readU16 (u16be names.length ++ lstNameBytes names) 0 =
      names.length := by
    rw [readU16_u16be, Nat.mod_eq_of_lt (by omega)]
  have hloop : unpackLSTLoop (u16be names.length ++ lstNameBytes names) 2
      names.length = .ok names := by
    have := unpackLSTLoop_pack names (u16be names.length) heach
    rw [show (u16be names.length).length = 2 from rfl] at this
    exact this
  simp only [unpackLST, hcount2]
  rw [if_neg (by omega), hloop]

end protocol

/-- C5 counterexample: a META whose filename has 65488 bytes satisfies
every condition of the claim (filename at most 65535 bytes, chunk in 16
bits, non negative size, 64 character lowercase hex hash), yet decoding
its encoding fails: the payload is 48 + 65488 = 65536 bytes, the 16 bit
declared length wraps to 0, and the decoder sees an empty payload. -/
theorem C5_meta_filename_cex :
    (List.replicate 65488 (97:Nat)).length ≤ 65535 ∧
    (List.replicate 64 (97:Nat)).length = 64 ∧
    (∀ j, j < 64 →
      protocol.isLowerHex ((List.replicate 64 (97:Nat)).getD j 0) = true) ∧
    protocol.DecodeCtrl (protocol.CtrlMETA
      ⟨List.replicate 65488 97, 0, 0, List.replicate 64 97, 1024⟩) =
      .error "META curto" := by
  refine ⟨by rw [List.length_replicate]; decide,
    by rw [List.length_replicate], by decide, ?_⟩
  have hL : (protocol.metaPayload
      ⟨List.replicate 65488 97, 0, 0, List.replicate 64 97, 1024⟩).length =
      65536 := by
    rw [protocol.metaPayload_length,
      show (⟨List.replicate 65488 97, 0, 0, List.replicate 64 97, 1024⟩ :
        protocol.Meta).Filename = List.replicate 65488 97 from rfl,
      List.length_replicate]
  have hp := protocol.parseCtrl_pack 2
    (protocol.metaPayload
      ⟨List.replicate 65488 97, 0, 0, List.replicate 64 97, 1024⟩).length
    (protocol.metaPayload
      ⟨List.replicate 65488 97, 0, 0, List.replicate 64 97, 1024⟩) rfl
  rw [hL, show (65536 % 2^16 : Nat) = 0 from by norm_num, List.take_zero] at hp
  rw [show protocol.CtrlMETA
      ⟨List.replicate 65488 97, 0, 0, List.replicate 64 97, 1024⟩ =
      protocol.ctrlHeader 2 (protocol.metaPayload
        ⟨List.replicate 65488 97, 0, 0, List.replicate 64 97, 1024⟩).length ++
      protocol.metaPayload
        ⟨List.replicate 65488 97, 0, 0, List.replicate 64 97, 1024⟩ from rfl,
    hL]
  rw [protocol.DecodeCtrl_meta _ _ hp]
  rfl

/-- C5 amended: every control frame whose payload fields stay within the
wire field bounds round trips through its encoder and DecodeCtrl with the
same tag and equal fields; for META the filename may hold at most 65487
bytes, so that the 48 byte fixed part plus the filename fits the 16 bit
control payload length, and the 32 hash bytes come back exactly as the
same 64 character lowercase hex string. -/
theorem C5_ctrl_roundtrip_amended :
    (∀ path : List Nat, path.length ≤ 65535 →
      protocol.DecodeCtrl (protocol.CtrlREQ path) =
        .ok (protocol.TypeREQ, .reqV path)) ∧
    (∀ m : protocol.Meta, m.Filename.length ≤ 65487 → m.Total < 2^32 →
      0 ≤ m.Size → m.Size < 2^63 → 0 ≤ m.Chunk → m.Chunk < 2^16 →
      m.SHA256.length = 64 →
      (∀ j, j < 64 → protocol.isLowerHex (m.SHA256.getD j 0) = true) →
      protocol.DecodeCtrl (protocol.CtrlMETA m) =
        .ok (protocol.TypeMETA, .metaV m)) ∧
    (∀ msg : List Nat, msg.length ≤ 65531 →
      protocol.DecodeCtrl (protocol.CtrlERR msg) =
        .ok (protocol.TypeERR, .errV msg)) ∧
    protocol.DecodeCtrl protocol.CtrlEOF = .ok (protocol.TypeEOF, .eofV) ∧
    (∀ missing : List Nat, missing.length ≤ 16383 →
      (∀ e ∈ missing, e < 2^32) →
      protocol.DecodeCtrl (protocol.CtrlNACK missing) =
        .ok (protocol.TypeNACK, .nackV missing)) ∧
    (∀ names : List (List Nat), names.length ≤ 65535 →
      (∀ nm ∈ names, nm.length ≤ 65535) →
      2 + (protocol.lstNameBytes names).length ≤ 65535 →
      protocol.DecodeCtrl (protocol.CtrlLST names) =
        .ok (protocol.TypeLST, .lstV names)) :=
  ⟨fun path h => protocol.decode_CtrlREQ path h,
   fun m h1 h2 h3 h4 h5 h6 h7 h8 =>
     protocol.decode_CtrlMETA m h1 h2 h3 h4 h5 h6 h7 h8,
   fun msg h => protocol.decode_CtrlERR msg h,
   protocol.decode_CtrlEOF,
   fun missing h1 h2 => protocol.decode_CtrlNACK_ok missing h1 h2,
   fun names h1 h2 h3 => protocol.decode_CtrlLST names h1 h2 h3⟩

/-- C5 witness: the amended theorem applied to one concrete frame of each
kind. -/
theorem C5_ctrl_roundtrip_amended_witness :
    protocol.DecodeCtrl (protocol.CtrlREQ [97]) =
      .ok (protocol.TypeREQ, .reqV [97]) ∧
    protocol.DecodeCtrl (protocol.CtrlMETA
        ⟨[97], 1, 0, List.replicate 64 48, 1024⟩) =
      .ok (protocol.TypeMETA, .metaV ⟨[97], 1, 0, List.replicate 64 48, 1024⟩) ∧
    protocol.DecodeCtrl (protocol.CtrlERR [98]) =
      .ok (protocol.TypeERR, .errV [98]) ∧
    protocol.DecodeCtrl protocol.CtrlEOF = .ok (protocol.TypeEOF, .eofV) ∧
    protocol.DecodeCtrl (protocol.CtrlNACK [7]) =
      .ok (protocol.TypeNACK, .nackV [7]) ∧
    protocol.DecodeCtrl (protocol.CtrlLST [[97]]) =
      .ok (protocol.TypeLST, .lstV [[97]]) :=
  ⟨C5_ctrl_roundtrip_amended.1 [97] (by decide),
   C5_ctrl_roundtrip_amended.2.1 ⟨[97], 1, 0, List.replicate 64 48, 1024⟩
     (by decide) (by decide) (by decide) (by decide) (by decide) (by decide)
     (by decide) (by decide),
   C5_ctrl_roundtrip_amended.2.2.1 [98] (by decide),
   C5_ctrl_roundtrip_amended.2.2.2.1,
   C5_ctrl_roundtrip_amended.2.2.2.2.1 [7] (by decide) (by decide),
   C5_ctrl_roundtrip_amended.2.2.2.2.2 [[97]] (by decide) (by decide) (by decide)⟩

/-- C10: a NACK frame carries at most 16383 sequences faithfully: lists
of at most 16383 entries round trip exactly, while for any longer list
the decoder never returns the original list, the declared payload length
having wrapped modulo 2^16. -/
theorem C10_nack_capacity :
    (∀ missing : List Nat, missing.length ≤ 16383 →
      (∀ e ∈ missing, e < 2^32) →
      protocol.DecodeCtrl (protocol.CtrlNACK missing) =
        .ok (protocol.TypeNACK, .nackV missing)) ∧
    (∀ missing : List Nat, 16383 < missing.length →
      protocol.DecodeCtrl (protocol.CtrlNACK missing) ≠
        .ok (protocol.TypeNACK, .nackV missing)) :=
  ⟨fun missing h1 h2 => protocol.decode_CtrlNACK_ok missing h1 h2,
   fun missing h1 => protocol.decode_CtrlNACK_overflow missing h1⟩

/-- C10 witness: the theorem applied to a one entry list and to a list of
16384 zeros. -/
theorem C10_nack_capacity_witness :
    protocol.DecodeCtrl (protocol.CtrlNACK [5]) =
      .ok (protocol.TypeNACK, .nackV [5]) ∧
    protocol.DecodeCtrl (protocol.CtrlNACK (List.replicate 16384 0)) ≠
      .ok (protocol.TypeNACK, .nackV (List.replicate 16384 0)) :=
  ⟨C10_nack_capacity.1 [5] (by decide) (by decide),
   C10_nack_capacity.2 (List.replicate 16384 0)
     (by rw [List.length_replicate]; decide)⟩

set_option maxRecDepth 100000 in
/-- C3 counterexample: assembleAndVerify applied with an output path that
names an existing directory (here the directory out) does not resolve the
path to out/recv_<basename>: the path is used as given, file creation
fails on the directory, an error is returned and nothing is written. The
directory joining resolution the claim attributes to Phase 4 lives in the
GUI caller, outside assembleAndVerify. -/
theorem C3_directory_resolution_cex :
    clientudp.assembleAndVerify
      ⟨[102], 0, 0, protocol.SHA256FileChunks [], 1024⟩ [] [111, 117, 116]
      ⟨[[111, 117, 116]]⟩ =
      ⟨[], false, some .createFailed, []⟩ := by
  rfl

/-- C3 amended: when a sequence below Total is missing, assembleAndVerify
fails with the incomplete error and writes no file; otherwise the output
path resolves to recv_<basename> only when the given path is blank and is
used verbatim otherwise, and, provided the target is not an existing
directory, a matching SHA-256 writes the data to the resolved path with
success while a mismatch writes it to the .corrupt variant and fails. -/
theorem C3_assemble_postcondition (meta : protocol.Meta)
    (recv : List (Nat × List Nat)) (op : List Nat) (fs : clientudp.FS) :
    (clientudp.computeMissing meta.Total recv ≠ [] →
      clientudp.assembleAndVerify meta recv op fs =
        ⟨[], false,
         some (.incomplete (clientudp.computeMissing meta.Total recv).length),
         []⟩) ∧
    (clientudp.computeMissing meta.Total recv = [] →
      protocol.SHA256FileChunks (clientudp.avChunks meta.Total recv) =
        meta.SHA256 →
      clientudp.avBaseOut meta op ∉ fs.dirs →
      clientudp.assembleAndVerify meta recv op fs =
        ⟨clientudp.avBaseOut meta op, true, none,
         [(clientudp.avBaseOut meta op, clientudp.avChunks meta.Total recv)]⟩) ∧
    (clientudp.computeMissing meta.Total recv = [] →
      protocol.SHA256FileChunks (clientudp.avChunks meta.Total recv) ≠
        meta.SHA256 →
      clientudp.avBaseOut meta op ++ clientudp.dotCorruptBytes ∉ fs.dirs →
      clientudp.assembleAndVerify meta recv op fs =
        ⟨clientudp.avBaseOut meta op ++ clientudp.dotCorruptBytes, false,
         some .shaMismatch,
         [(clientudp.avBaseOut meta op ++ clientudp.dotCorruptBytes,
           clientudp.avChunks meta.Total recv)]⟩) := by
  refine ⟨?_, ?_, ?_⟩
  · intro hmiss
    simp only [clientudp.assembleAndVerify]
    rw [if_pos (List.length_pos.2 hmiss)]
  · intro hmiss hmatch hmem
    simp only [clientudp.assembleAndVerify]
    rw [if_neg (by simp [hmiss]), if_pos hmatch, if_neg hmem, if_pos hmatch]
  · intro hmiss hmatch hmem
    simp only [clientudp.assembleAndVerify]
    rw [if_neg (by simp [hmiss]), if_neg hmatch, if_neg hmem, if_neg hmatch]

set_option maxRecDepth 100000 in
/-- C3 witness: the amended theorem applied to a zero chunk file with a
blank output path and a file system with no directories in the way. -/
theorem C3_assemble_postcondition_witness :
    clientudp.computeMissing
      (⟨[102], 0, 0, protocol.SHA256FileChunks [], 1024⟩ :
        protocol.Meta).Total [] = [] ∧
    clientudp.assembleAndVerify
      ⟨[102], 0, 0, protocol.SHA256FileChunks [], 1024⟩ [] [] ⟨[]⟩ =
      ⟨clientudp.avBaseOut
         ⟨[102], 0, 0, protocol.SHA256FileChunks [], 1024⟩ [], true, none,
       [(clientudp.avBaseOut
           ⟨[102], 0, 0, protocol.SHA256FileChunks [], 1024⟩ [],
         clientudp.avChunks
           (⟨[102], 0, 0, protocol.SHA256FileChunks [], 1024⟩ :
             protocol.Meta).Total [])]⟩ :=
  ⟨rfl,
   (C3_assemble_postcondition
     ⟨[102], 0, 0, protocol.SHA256FileChunks [], 1024⟩ [] [] ⟨[]⟩).2.1
     rfl rfl (by decide)⟩

/-- C2: every processPacket call that returns (rather than panicking)
either leaves the receive map and both counters unchanged, or performs
exactly one insert: the inserted payload is the declared size slice whose
CRC-32 equals the header field, its sequence was not yet a key of the
map, and the byte and segment counters grow by the payload length and by
one. -/
theorem C2_receive_state_invariant (b : clientudp.GoSlice)
    (st : clientudp.PPState) (r : clientudp.PPOut)
    (h : clientudp.processPacket b st = some r) :
    (r.st.recv = st.recv ∧ r.st.bytesRecv = st.bytesRecv ∧
     r.st.segsRecv = st.segsRecv) ∨
    (∃ hd payload,
      protocol.UnpackHeader ((clientudp.gArr b).take 18) = .ok hd ∧
      payload = ((clientudp.gArr b).take (18 + hd.Size)).drop 18 ∧
      payload.length = hd.Size ∧
      protocol.CRC32 payload = hd.CRC32 ∧
      st.recv.lookup hd.Seq = none ∧
      r.st.recv = (hd.Seq, payload) :: st.recv ∧
      r.st.bytesRecv = st.bytesRecv + payload.length ∧
      r.st.segsRecv = st.segsRecv + 1) := by
  simp only [clientudp.processPacket] at h
  split at h
  · left
    split at h <;> (injection h with h1; rw [← h1]; exact ⟨rfl, rfl, rfl⟩)
  · split at h
    · exact absurd h (by simp)
    · rename_i hb heq1
      split at h
      · left
        injection h with h1
        rw [← h1]
        exact ⟨rfl, rfl, rfl⟩
      · rename_i hd heq2
        split at h
        · exact absurd h (by simp)
        · split at h
          · left
            injection h with h1
            rw [← h1]
            exact ⟨rfl, rfl, rfl⟩
          · rename_i h4
            split at h
            · exact absurd h (by simp)
            · rename_i pay heq5
              split at h
              · left
                injection h with h1
                rw [← h1]
                exact ⟨rfl, rfl, rfl⟩
              · rename_i h6
                split at h
                · left
                  injection h with h1
                  rw [← h1]
                  exact ⟨rfl, rfl, rfl⟩
                · split at h
                  · left
                    injection h with h1
                    rw [← h1]
                    exact ⟨rfl, rfl, rfl⟩
                  · rename_i h8
                    split at h
                    · left
                      injection h with h1
                      rw [← h1]
                      exact ⟨rfl, rfl, rfl⟩
                    · rename_i h9
                      right
                      have hbd : hb.data = (clientudp.gArr b).take 18 := by
                        unfold clientudp.gSlice at heq1
                        split at heq1
                        · injection heq1 with e1
                          rw [← e1]
                          simp
                        · exact absurd heq1 (by simp)
                      have hpd : pay.data =
                          ((clientudp.gArr b).take (18 + hd.Size)).drop 18 := by
                        unfold clientudp.gSlice at heq5
                        split at heq5
                        · injection heq5 with e5
                          rw [← e5]
                        · exact absurd heq5 (by simp)
                      injection h with h10
                      refine ⟨hd, pay.data, ?_, hpd, not_ne_iff.1 h6,
                        not_ne_iff.1 h8, Option.not_isSome_iff_eq_none.1 h9,
                        ?_, ?_, ?_⟩
                      · rw [← hbd]
                        exact heq2
                      · rw [← h10]
                      · rw [← h10]
                      · rw [← h10]

set_option maxRecDepth 100000 in
/-- C2 witness: the theorem applied to a well formed one byte DATA packet
carrying payload byte 7 with a correct CRC, received into the empty
state, which inserts the payload and bumps both counters. -/
theorem C2_receive_state_invariant_witness :
    clientudp.processPacket
      ⟨protocol.PackHeader ⟨0, 1, 1, protocol.CRC32 [7]⟩ ++ [7], []⟩
      ⟨none, [], 0, 0⟩ =
      some ⟨false, ⟨none, [(0, [7])], 1, 1⟩⟩ ∧
    (((⟨false, ⟨none, [(0, [7])], 1, 1⟩⟩ : clientudp.PPOut).st.recv =
        (⟨none, [], 0, 0⟩ : clientudp.PPState).recv ∧
      (⟨false, ⟨none, [(0, [7])], 1, 1⟩⟩ : clientudp.PPOut).st.bytesRecv =
        (⟨none, [], 0, 0⟩ : clientudp.PPState).bytesRecv ∧
      (⟨false, ⟨none, [(0, [7])], 1, 1⟩⟩ : clientudp.PPOut).st.segsRecv =
        (⟨none, [], 0, 0⟩ : clientudp.PPState).segsRecv) ∨
     (∃ hd payload,
       protocol.UnpackHeader ((clientudp.gArr
         ⟨protocol.PackHeader ⟨0, 1, 1, protocol.CRC32 [7]⟩ ++ [7], []⟩).take 18) =
           .ok hd ∧
       payload = ((clientudp.gArr
         ⟨protocol.PackHeader ⟨0, 1, 1, protocol.CRC32 [7]⟩ ++ [7], []⟩).take
           (18 + hd.Size)).drop 18 ∧
       payload.length = hd.Size ∧
       protocol.CRC32 payload = hd.CRC32 ∧
       (⟨none, [], 0, 0⟩ : clientudp.PPState).recv.lookup hd.Seq = none ∧
       (⟨false, ⟨none, [(0, [7])], 1, 1⟩⟩ : clientudp.PPOut).st.recv =
         (hd.Seq, payload) :: (⟨none, [], 0, 0⟩ : clientudp.PPState).recv ∧
       (⟨false, ⟨none, [(0, [7])], 1, 1⟩⟩ : clientudp.PPOut).st.bytesRecv =
         (⟨none, [], 0, 0⟩ : clientudp.PPState).bytesRecv + payload.length ∧
       (⟨false, ⟨none, [(0, [7])], 1, 1⟩⟩ : clientudp.PPOut).st.segsRecv =
         (⟨none, [], 0, 0⟩ : clientudp.PPState).segsRecv + 1)) :=
  ⟨by rfl,
   C2_receive_state_invariant
     ⟨protocol.PackHeader ⟨0, 1, 1, protocol.CRC32 [7]⟩ ++ [7], []⟩
     ⟨none, [], 0, 0⟩ ⟨false, ⟨none, [(0, [7])], 1, 1⟩⟩ (by rfl)⟩
